import Mathlib

/-!
# SmartDeliveryChatbot: the message pipeline of `app.js`

A shallow embedding of `preprocessText`, `classifyIntent`, `getDeliveryStatus`
and the `POST /api/message` handler.  JavaScript strings are lists of
characters, `undefined` intents and order ids are `none`, a rejected promise or
a thrown exception is `Except.error`, and every side effect (outbound GET,
log line, `Dialog.create`) is appended to an explicit event trace.

The libraries the program calls (the tokenizer of `natural`, the built-in
`toLowerCase`, the loaded model, `axios`, `mongoose`) are not part of the
repository; they enter as fields of `World`.
-/

namespace SmartDeliveryChatbot

/-- A JavaScript string, as its sequence of characters. -/
abbrev Str := List Char

/-- The values `response.data.status` can take.  `other` stands for every value
that is neither `undefined`, `null` nor a string (numbers, booleans, objects),
described by its truthiness and by its string conversion; `shown` is `none`
when converting the value to a string throws (an object such as
`{"toString": 0}`, which has no usable `toString` or `valueOf`). -/
inductive JsValue where
  | undefined
  | null
  | str (s : Str)
  | other (truthy : Bool) (shown : Option Str)
  deriving DecidableEq, Repr

namespace JsValue

/-- Truthiness, as used by `status ? ... : ...`. -/
def truthy : JsValue → Bool
  | undefined => false
  | null => false
  | str s => !s.isEmpty
  | other t _ => t

/-- String conversion, as used by a template literal; it throws a `TypeError`
for a value that cannot be converted. -/
def toStr : JsValue → Except Str Str
  | undefined => .ok "undefined".toList
  | null => .ok "null".toList
  | str s => .ok s
  | other _ (some shown) => .ok shown
  | other _ none => .error "TypeError: Cannot convert object to primitive value".toList

end JsValue

/-- The body of a fulfilled `axios.get`: `response.data`. Reading `.status` of
`undefined` or `null` throws; reading it of anything else gives a value
(`undefined` when there is no such field). -/
inductive Payload where
  | nullish
  | value (status : JsValue)
  deriving DecidableEq, Repr

/-- What `await axios.get(url)` does: it rejects (transport error, timeout,
non-2xx status) or fulfils with a response carrying `data`. -/
inductive HttpOutcome where
  | rejected (error : Str)
  | resolved (data : Payload)
  deriving DecidableEq, Repr

/-- The object handed to `Dialog.create`. -/
structure DialogRecord where
  userId : Str
  message : Str
  intent : Option Str
  deriving DecidableEq, Repr

/-- Observable side effects of one request, in program order. -/
inductive Event where
  | httpGet (url : Str)
  | logError (label : Str)
  | dialogCreate (record : DialogRecord)
  deriving DecidableEq, Repr

/-- The value `prediction.argMax()` evaluates to, seen as the subscript of
`intents[...]`: an integer number, or any other value, which names no element of
the array (`Tensor.argMax()` of tfjs returns a tensor object, not a number). -/
inductive Subscript where
  | number (i : Int)
  | other
  deriving DecidableEq, Repr

/-- The object `model` once loaded. `embed` is `none` when the object has no such
method (a tfjs `LayersModel` has none), in which case calling it throws;
`predict` and `argMax` are library calls whose results are opaque and which may
throw. -/
structure Model (E P : Type) where
  embed : Option (Str → Except Str E)
  predict : E → Except Str P
  argMax : P → Except Str Subscript

/-- Everything outside `app.js` that a request depends on. `model` is `none`
while `tf.loadLayersModel` has not resolved; `dialogCreate` tells whether
`Dialog.create` fulfils (`true`) or rejects (`false`). -/
structure World (E P : Type) where
  model : Option (Model E P)
  tokenize : Str → List Str
  toLowerCase : Str → Str
  httpGet : Str → HttpOutcome
  dialogCreate : DialogRecord → Bool

/-- What the handler sends back: `res.json({ response })` or
`res.status(500).json({ error })`. -/
inductive Reply where
  | ok (response : Str)
  | error500
  deriving DecidableEq, Repr

deriving instance DecidableEq for Except

/-- The character class `[0-9]` (also `\d` without the `u` flag). -/
def isDigit (c : Char) : Bool :=
  decide ('0' ≤ c) && decide (c ≤ '9')

/-- The test `/[0-9]/.test(token)`: scans for the first character of the class. -/
def regexTestDigit : Str → Bool
  | [] => false
  | c :: cs => if isDigit c then true else regexTestDigit cs

/-- The expression `text.match(/\d+/)?.[0]`: skip to the first digit, then take
digits greedily; `none` is `undefined`. -/
def matchDigits : Str → Option Str
  | [] => none
  | c :: cs => if isDigit c then some (c :: cs.takeWhile isDigit) else matchDigits cs

/-- The method `Array.prototype.join`. -/
def join (sep : Str) : List Str → Str
  | [] => []
  | [t] => t
  | t :: ts => t ++ sep ++ join sep ts

/-- The function `preprocessText`. -/
def preprocessText {E P : Type} (w : World E P) (text : Str) : List Str :=
  let tokens := w.tokenize (w.toLowerCase text)
  tokens.filter (fun token => !regexTestDigit token)

/-- The list `intents` of `classifyIntent`. -/
def intents : List Str := ["delivery".toList, "payment".toList, "return".toList]

/-- Indexing `intents[k]`: an entry when `k` is the number `0`, `1` or `2`,
`undefined` for every other subscript. -/
def intentAt : Subscript → Option Str
  | .number i => if 0 ≤ i then intents[i.toNat]? else none
  | .other => none

/-- The function `classifyIntent`; reading `model.embed` while `model` is unset
throws a `TypeError`. -/
def classifyIntent {E P : Type} (w : World E P) (text : Str) : Except Str (Option Str) :=
  let tokens := preprocessText w text
  match w.model with
  | none => .error "TypeError: Cannot read properties of undefined".toList
  | some model =>
    match model.embed with
    | none => .error "TypeError: model.embed is not a function".toList
    | some embed =>
      match embed (join " ".toList tokens) with
      | .error e => .error e
      | .ok embeddings =>
        match model.predict embeddings with
        | .error e => .error e
        | .ok prediction =>
          match model.argMax prediction with
          | .error e => .error e
          | .ok k => .ok (intentAt k)

/-- The template literal with `orderId` filled in. -/
def orderUrl (orderId : Option Str) : Str :=
  "https://api.delivery.com/orders/".toList ++
    (match orderId with
     | none => "undefined".toList
     | some id => id)

/-- The `try` block of `getDeliveryStatus`. -/
def getDeliveryStatusTry (httpGet : Str → HttpOutcome) (orderId : Option Str) :
    Except Str JsValue :=
  match httpGet (orderUrl orderId) with
  | .rejected e => .error e
  | .resolved .nullish => .error "TypeError: Cannot read properties of undefined".toList
  | .resolved (.value status) => .ok status

/-- The function `getDeliveryStatus`: result (or thrown error) and events. -/
def getDeliveryStatus (httpGet : Str → HttpOutcome) (orderId : Option Str) :
    Except Str JsValue × List Event :=
  match getDeliveryStatusTry httpGet orderId with
  | .ok status => (.ok status, [.httpGet (orderUrl orderId)])
  | .error _ =>
    (.ok .null, [.httpGet (orderUrl orderId), .logError "Delivery API error:".toList])

def statusPrefix : Str := "Статус заказа: ".toList
def orderNotFound : Str := "Заказ не найден.".toList
def paymentInfo : Str := "Оплата возможна картой или наличными.".toList
def clarification : Str := "Уточните ваш вопрос.".toList

/-- The conditional expression of the delivery case: the template literal is
evaluated, and may throw, only for a truthy status. -/
def deliveryReply (status : JsValue) : Except Str Str :=
  if status.truthy then
    match status.toStr with
    | .ok shown => .ok (statusPrefix ++ shown)
    | .error e => .error e
  else .ok orderNotFound

/-- The `switch (intent)` of the handler: the reply (or a thrown error) and the
events of the resolver call. -/
def dispatch (httpGet : Str → HttpOutcome) (intent : Option Str) (text : Str) :
    Except Str Str × List Event :=
  if intent = some "delivery".toList then
    let orderId := matchDigits text
    match getDeliveryStatus httpGet orderId with
    | (.error e, events) => (.error e, events)
    | (.ok status, events) => (deliveryReply status, events)
  else if intent = some "payment".toList then
    (.ok paymentInfo, [])
  else
    (.ok clarification, [])

/-- The `catch` block of the handler. -/
def handlerCatch (events : List Event) : Reply × List Event :=
  (.error500, events ++ [.logError "Processing error:".toList])

/-- The handler of `POST /api/message`. -/
def handler {E P : Type} (w : World E P) (userId text : Str) : Reply × List Event :=
  match classifyIntent w text with
  | .error _ => handlerCatch []
  | .ok intent =>
    match dispatch w.httpGet intent text with
    | (.error _, events) => handlerCatch events
    | (.ok response, events) =>
      let record : DialogRecord := { userId := userId, message := text, intent := intent }
      if w.dialogCreate record then
        (.ok response, events ++ [.dialogCreate record])
      else
        handlerCatch (events ++ [.dialogCreate record])

/-- The `Dialog.create` calls of a trace. -/
def dialogCreates : List Event → List DialogRecord
  | [] => []
  | .dialogCreate r :: es => r :: dialogCreates es
  | _ :: es => dialogCreates es

/-- The outbound requests of a trace. -/
def httpGets : List Event → List Str
  | [] => []
  | .httpGet u :: es => u :: httpGets es
  | _ :: es => httpGets es

/-- Modelled from the spec: `WordTokenizer.tokenize` of the library `natural`
(not part of the repository), "splits on word boundaries": the text is cut at
every run of separator characters and empty pieces are dropped. `acc` holds the
characters of the current word, last one first. -/
def wordTokenizeAux (isSep : Char → Bool) : Str → Str → List Str
  | acc, [] => if acc.isEmpty then [] else [acc.reverse]
  | acc, c :: cs =>
    if isSep c then
      if acc.isEmpty then wordTokenizeAux isSep [] cs
      else acc.reverse :: wordTokenizeAux isSep [] cs
    else wordTokenizeAux isSep (c :: acc) cs

/-- Modelled from the spec: the word tokenizer for a given separator class. -/
def wordTokenize (isSep : Char → Bool) (s : Str) : List Str :=
  wordTokenizeAux isSep [] s

/-- The separator class of `natural`'s `WordTokenizer`: everything outside
`A-Za-zА-Яа-я0-9_`. -/
def wordSep (c : Char) : Bool :=
  !(decide ('A' ≤ c) && decide (c ≤ 'Z') || decide ('a' ≤ c) && decide (c ≤ 'z') ||
    decide ('А' ≤ c) && decide (c ≤ 'я') || isDigit c || c == '_')

/-- Spec side of `preprocessText`: a token contains a digit character. -/
def ContainsDigit (token : Str) : Prop :=
  ∃ c ∈ token, c ∈ ['0', '1', '2', '3', '4', '5', '6', '7', '8', '9']

instance (token : Str) : Decidable (ContainsDigit token) := by
  unfold ContainsDigit; infer_instance

/-- Spec side of the dispatcher: `run` is the leftmost maximal digit run of
`text`. -/
def IsFirstDigitRun (text run : Str) : Prop :=
  ∃ pre post, text = pre ++ run ++ post ∧ (∀ c ∈ pre, isDigit c = false) ∧
    run ≠ [] ∧ (∀ c ∈ run, isDigit c = true) ∧ (∀ c, post.head? = some c → isDigit c = false)

/-- A loaded model with an `embed` method whose `argMax()` is always the
number `i`. -/
def constModel (i : Int) : Model Unit Unit :=
  { embed := some (fun _ => .ok ()), predict := fun _ => .ok (),
    argMax := fun _ => .ok (.number i) }

/-- A loaded model with an `embed` method whose `argMax()` is a tensor object, as
in tfjs. -/
def tensorModel : Model Unit Unit :=
  { embed := some (fun _ => .ok ()), predict := fun _ => .ok (),
    argMax := fun _ => .ok .other }

/-- A status service that knows exactly one URL. -/
def serviceWith (url : Str) (data : Payload) : Str → HttpOutcome :=
  fun u => if u = url then .resolved data else .rejected "404".toList

/-- A concrete world: a loaded constant model, the word tokenizer, ASCII
lower-casing, a one-entry status service and a store that fulfils or rejects. -/
def sampleWorld (i : Int) (url : Str) (data : Payload) (store : Bool) : World Unit Unit :=
  { model := some (constModel i)
    tokenize := wordTokenize wordSep
    toLowerCase := List.map Char.toLower
    httpGet := serviceWith url data
    dialogCreate := fun _ => store }

/-- The sample world before the model has loaded. -/
def coldWorld : World Unit Unit :=
  { sampleWorld 0 [] .nullish true with model := none }

/-- The sample world with a model whose `argMax()` is a tensor object. -/
def tensorWorld : World Unit Unit :=
  { sampleWorld 0 [] .nullish true with model := some tensorModel }

end SmartDeliveryChatbot

namespace SmartDeliveryChatbot

/-! ## Shared lemmas -/

theorem getDeliveryStatus_cases (httpGet : Str → HttpOutcome) (orderId : Option Str) :
    (∃ s, httpGet (orderUrl orderId) = .resolved (.value s) ∧
      getDeliveryStatus httpGet orderId = (.ok s, [.httpGet (orderUrl orderId)])) ∨
    ((∀ s, httpGet (orderUrl orderId) ≠ .resolved (.value s)) ∧
      getDeliveryStatus httpGet orderId =
        (.ok .null, [.httpGet (orderUrl orderId), .logError "Delivery API error:".toList])) := by
  unfold getDeliveryStatus getDeliveryStatusTry
  cases h : httpGet (orderUrl orderId) with
  | rejected e => right; simp
  | resolved data =>
    cases data with
    | nullish => right; simp
    | value s => left; exact ⟨s, rfl, rfl⟩

theorem httpGets_getDeliveryStatus (httpGet : Str → HttpOutcome) (orderId : Option Str) :
    httpGets (getDeliveryStatus httpGet orderId).2 = [orderUrl orderId] := by
  rcases getDeliveryStatus_cases httpGet orderId with ⟨s, _, h⟩ | ⟨_, h⟩ <;>
    simp [h, httpGets]

theorem dialogCreates_getDeliveryStatus (httpGet : Str → HttpOutcome) (orderId : Option Str) :
    dialogCreates (getDeliveryStatus httpGet orderId).2 = [] := by
  rcases getDeliveryStatus_cases httpGet orderId with ⟨s, _, h⟩ | ⟨_, h⟩ <;>
    simp [h, dialogCreates]

theorem dispatch_delivery (httpGet : Str → HttpOutcome) (text : Str) :
    ∃ status, (getDeliveryStatus httpGet (matchDigits text)).1 = .ok status ∧
      dispatch httpGet (some "delivery".toList) text =
        (deliveryReply status, (getDeliveryStatus httpGet (matchDigits text)).2) := by
  rcases getDeliveryStatus_cases httpGet (matchDigits text) with ⟨s, _, h⟩ | ⟨_, h⟩
  · exact ⟨s, by rw [h], by simp [dispatch, h]⟩
  · exact ⟨.null, by rw [h], by simp [dispatch, h]⟩

theorem dispatch_other (httpGet : Str → HttpOutcome) (intent : Option Str) (text : Str)
    (h : intent ≠ some "delivery".toList) :
    dispatch httpGet intent text =
      (.ok (if intent = some "payment".toList then paymentInfo else clarification), []) := by
  unfold dispatch
  rw [if_neg h]
  split <;> rfl

theorem dialogCreates_dispatch (httpGet : Str → HttpOutcome) (intent : Option Str) (text : Str) :
    dialogCreates (dispatch httpGet intent text).2 = [] := by
  by_cases h : intent = some "delivery".toList
  · subst h
    obtain ⟨status, _, hd⟩ := dispatch_delivery httpGet text
    rw [hd]
    exact dialogCreates_getDeliveryStatus httpGet _
  · rw [dispatch_other httpGet intent text h]; rfl

theorem dialogCreates_append (xs ys : List Event) :
    dialogCreates (xs ++ ys) = dialogCreates xs ++ dialogCreates ys := by
  induction xs with
  | nil => rfl
  | cons e es ih => cases e <;> simp [dialogCreates, ih]

theorem matchDigits_none (text : Str) (h : ∀ c ∈ text, isDigit c = false) :
    matchDigits text = none := by
  induction text with
  | nil => rfl
  | cons c cs ih =>
    have hc : isDigit c = false := h c (List.mem_cons_self _ _)
    simp only [matchDigits, hc]
    exact ih (fun d hd => h d (List.mem_cons_of_mem _ hd))

theorem takeWhile_digit_run (run post : Str) (hrun : ∀ c ∈ run, isDigit c = true)
    (hpost : ∀ c, post.head? = some c → isDigit c = false) :
    (run ++ post).takeWhile isDigit = run := by
  rw [List.takeWhile_append_of_pos hrun]
  cases post with
  | nil => simp
  | cons d ds =>
    have hd : isDigit d = false := hpost d rfl
    simp [List.takeWhile_cons, hd]

theorem matchDigits_of_run (text run : Str) (h : IsFirstDigitRun text run) :
    matchDigits text = some run := by
  obtain ⟨pre, post, rfl, hpre, hne, hrun, hpost⟩ := h
  induction pre with
  | nil =>
    cases run with
    | nil => exact absurd rfl hne
    | cons c r =>
      have hc : isDigit c = true := hrun c (List.mem_cons_self _ _)
      have hr : ∀ d ∈ r, isDigit d = true := fun d hd => hrun d (List.mem_cons_of_mem _ hd)
      have ht := takeWhile_digit_run r post hr hpost
      show matchDigits (c :: (r ++ post)) = some (c :: r)
      simp only [matchDigits, hc, if_true, ht]
  | cons p ps ih =>
    have hp : isDigit p = false := hpre p (List.mem_cons_self _ _)
    simp only [List.cons_append, matchDigits, hp]
    exact ih (fun d hd => hpre d (List.mem_cons_of_mem _ hd))

theorem exists_firstDigitRun (text : Str) (h : ∃ c ∈ text, isDigit c = true) :
    ∃ run, IsFirstDigitRun text run := by
  induction text with
  | nil => obtain ⟨c, hc, _⟩ := h; cases hc
  | cons c cs ih =>
    by_cases hc : isDigit c = true
    · refine ⟨c :: cs.takeWhile isDigit, [], cs.dropWhile isDigit, ?_, ?_, ?_, ?_, ?_⟩
      · simp
      · intro d hd; cases hd
      · simp
      · intro d hd
        rcases List.mem_cons.mp hd with rfl | hd
        · exact hc
        · exact List.mem_takeWhile_imp hd
      · intro d hd
        have := List.head?_dropWhile_not isDigit cs
        rw [hd] at this
        simpa using this
    · have hc' : isDigit c = false := by simpa using hc
      obtain ⟨d, hd, hdd⟩ := h
      rcases List.mem_cons.mp hd with rfl | hd
      · exact absurd hdd hc
      · obtain ⟨run, pre, post, ht, hpre, hne, hrun, hpost⟩ := ih ⟨d, hd, hdd⟩
        refine ⟨run, c :: pre, post, by simp [ht], ?_, hne, hrun, hpost⟩
        intro e he
        rcases List.mem_cons.mp he with rfl | he
        · exact hc'
        · exact hpre e he

theorem isDigit_iff (c : Char) :
    isDigit c = true ↔ c ∈ ['0', '1', '2', '3', '4', '5', '6', '7', '8', '9'] := by
  constructor
  · intro h
    simp only [isDigit, Bool.and_eq_true, decide_eq_true_eq] at h
    obtain ⟨h0, h9⟩ := h
    have h0' : 48 ≤ c.toNat := h0
    have h9' : c.toNat ≤ 57 := h9
    have hc : c = Char.ofNat c.toNat := (Char.ofNat_toNat c).symm
    generalize c.toNat = n at h0' h9' hc
    subst hc
    interval_cases n <;> decide
  · intro h
    simp only [List.mem_cons, List.mem_singleton, List.not_mem_nil, or_false] at h
    rcases h with rfl | rfl | rfl | rfl | rfl | rfl | rfl | rfl | rfl | rfl <;> decide

theorem regexTestDigit_iff (token : Str) :
    regexTestDigit token = true ↔ ∃ c ∈ token, isDigit c = true := by
  induction token with
  | nil => simp [regexTestDigit]
  | cons c cs ih =>
    by_cases hc : isDigit c = true
    · simp [regexTestDigit, hc]
    · simp [regexTestDigit, hc, ih]

theorem regexTestDigit_iff_containsDigit (token : Str) :
    regexTestDigit token = true ↔ ContainsDigit token := by
  rw [regexTestDigit_iff]
  unfold ContainsDigit
  constructor
  · rintro ⟨c, hc, hd⟩; exact ⟨c, hc, (isDigit_iff c).mp hd⟩
  · rintro ⟨c, hc, hd⟩; exact ⟨c, hc, (isDigit_iff c).mpr hd⟩

theorem wordTokenizeAux_mem (isSep : Char → Bool) (s : Str) :
    ∀ acc : Str, (∀ c ∈ acc, isSep c = false) → ∀ t ∈ wordTokenizeAux isSep acc s,
      t ≠ [] ∧ ∀ c ∈ t, isSep c = false ∧ (c ∈ acc ∨ c ∈ s) := by
  induction s with
  | nil =>
    intro acc hacc t ht
    cases acc with
    | nil => simp [wordTokenizeAux] at ht
    | cons a as =>
      simp only [wordTokenizeAux, List.isEmpty_cons, Bool.false_eq_true, if_false,
        List.mem_singleton] at ht
      subst ht
      refine ⟨by simp, ?_⟩
      intro c hc
      have hc' : c ∈ a :: as := List.mem_reverse.mp hc
      exact ⟨hacc c hc', Or.inl hc'⟩
  | cons d ds ih =>
    intro acc hacc t ht
    by_cases hd : isSep d = true
    · have hnil : ∀ t ∈ wordTokenizeAux isSep [] ds,
          t ≠ [] ∧ ∀ c ∈ t, isSep c = false ∧ (c ∈ acc ∨ c ∈ d :: ds) := by
        intro t ht
        obtain ⟨hne, hcs⟩ := ih [] (by simp) t ht
        refine ⟨hne, fun c hc => ?_⟩
        obtain ⟨h1, h2⟩ := hcs c hc
        rcases h2 with h2 | h2
        · cases h2
        · exact ⟨h1, Or.inr (List.mem_cons_of_mem _ h2)⟩
      cases acc with
      | nil =>
        simp only [wordTokenizeAux, hd, if_true, List.isEmpty_nil] at ht
        exact hnil t ht
      | cons a as =>
        simp only [wordTokenizeAux, hd, if_true, List.isEmpty_cons, Bool.false_eq_true,
          if_false, List.mem_cons] at ht
        rcases ht with rfl | ht
        · refine ⟨by simp, ?_⟩
          intro c hc
          have hc' : c ∈ a :: as := List.mem_reverse.mp hc
          exact ⟨hacc c hc', Or.inl hc'⟩
        · exact hnil t ht
    · have hd' : isSep d = false := by simpa using hd
      simp only [wordTokenizeAux, hd', Bool.false_eq_true, if_false] at ht
      have hacc' : ∀ c ∈ d :: acc, isSep c = false := by
        intro c hc
        rcases List.mem_cons.mp hc with rfl | hc
        · exact hd'
        · exact hacc c hc
      obtain ⟨hne, hcs⟩ := ih (d :: acc) hacc' t ht
      refine ⟨hne, fun c hc => ?_⟩
      obtain ⟨h1, h2⟩ := hcs c hc
      refine ⟨h1, ?_⟩
      rcases h2 with h2 | h2
      · rcases List.mem_cons.mp h2 with rfl | h2
        · exact Or.inr (List.mem_cons_self _ _)
        · exact Or.inl h2
      · exact Or.inr (List.mem_cons_of_mem _ h2)

theorem wordTokenize_mem (isSep : Char → Bool) (s t : Str) (ht : t ∈ wordTokenize isSep s) :
    t ≠ [] ∧ (∀ c ∈ t, isSep c = false) ∧ ∀ c ∈ t, c ∈ s := by
  obtain ⟨hne, hcs⟩ := wordTokenizeAux_mem isSep s [] (by simp) t ht
  refine ⟨hne, fun c hc => (hcs c hc).1, fun c hc => ?_⟩
  rcases (hcs c hc).2 with h | h
  · cases h
  · exact h

theorem wordTokenizeAux_word (isSep : Char → Bool) (t : Str) :
    ∀ (acc rest : Str), (∀ c ∈ t, isSep c = false) →
      wordTokenizeAux isSep acc (t ++ rest) = wordTokenizeAux isSep (t.reverse ++ acc) rest := by
  induction t with
  | nil => intro acc rest _; rfl
  | cons c cs ih =>
    intro acc rest h
    have hc : isSep c = false := h c (List.mem_cons_self _ _)
    have hcs : ∀ d ∈ cs, isSep d = false := fun d hd => h d (List.mem_cons_of_mem _ hd)
    show wordTokenizeAux isSep acc (c :: (cs ++ rest)) = _
    simp only [wordTokenizeAux, hc, Bool.false_eq_true, if_false]
    rw [ih (c :: acc) rest hcs]
    simp

theorem wordTokenize_join (isSep : Char → Bool) (hsp : isSep ' ' = true) (ts : List Str)
    (h : ∀ t ∈ ts, t ≠ [] ∧ ∀ c ∈ t, isSep c = false) :
    wordTokenize isSep (join [' '] ts) = ts := by
  induction ts with
  | nil => rfl
  | cons t ts ih =>
    obtain ⟨hne, hsep⟩ := h t (List.mem_cons_self _ _)
    have hrev : t.reverse.isEmpty = false := by
      cases t with
      | nil => exact absurd rfl hne
      | cons a as => simp
    cases ts with
    | nil =>
      show wordTokenizeAux isSep [] t = [t]
      have := wordTokenizeAux_word isSep t [] [] hsep
      rw [List.append_nil, List.append_nil] at this
      rw [this]
      simp [wordTokenizeAux, hrev]
    | cons u us =>
      have ih' := ih (fun x hx => h x (List.mem_cons_of_mem _ hx))
      show wordTokenizeAux isSep [] (t ++ [' '] ++ join [' '] (u :: us)) = t :: u :: us
      rw [List.append_assoc, wordTokenizeAux_word isSep t [] _ hsep, List.append_nil]
      show wordTokenizeAux isSep t.reverse (' ' :: join [' '] (u :: us)) = t :: u :: us
      simp only [wordTokenizeAux, hsp, if_true, hrev, Bool.false_eq_true, if_false,
        List.reverse_reverse]
      have : wordTokenizeAux isSep [] (join [' '] (u :: us)) = u :: us := ih'
      rw [this]

theorem mem_join (sep : Str) (ts : List Str) (c : Char) (hc : c ∈ join sep ts) :
    c ∈ sep ∨ ∃ t ∈ ts, c ∈ t := by
  induction ts with
  | nil => cases hc
  | cons t ts ih =>
    cases ts with
    | nil => exact Or.inr ⟨t, List.mem_cons_self _ _, hc⟩
    | cons u us =>
      have hc' : c ∈ t ++ sep ++ join sep (u :: us) := hc
      rcases List.mem_append.mp hc' with h | h
      · rcases List.mem_append.mp h with h | h
        · exact Or.inr ⟨t, List.mem_cons_self _ _, h⟩
        · exact Or.inl h
      · rcases ih h with h | ⟨x, hx, hcx⟩
        · exact Or.inl h
        · exact Or.inr ⟨x, List.mem_cons_of_mem _ hx, hcx⟩

theorem toLower_toLower (c : Char) : c.toLower.toLower = c.toLower := by
  by_cases h : 65 ≤ c.toNat ∧ c.toNat ≤ 90
  · have hc : c = Char.ofNat c.toNat := (Char.ofNat_toNat c).symm
    obtain ⟨h1, h2⟩ := h
    generalize c.toNat = n at h1 h2 hc
    subst hc
    interval_cases n <;> decide
  · have : c.toLower = c := by
      unfold Char.toLower
      simp only [ge_iff_le]
      rw [if_neg h]
    rw [this, this]

theorem map_toLower_fixed (s : Str)
    (h : ∀ c ∈ s, c = ' ' ∨ ∃ u : Str, c ∈ u.map Char.toLower) :
    s.map Char.toLower = s := by
  have : ∀ c ∈ s, Char.toLower c = c := by
    intro c hc
    rcases h c hc with rfl | ⟨u, hu⟩
    · decide
    · obtain ⟨d, _, rfl⟩ := List.mem_map.mp hu
      exact toLower_toLower d
  calc s.map Char.toLower = s.map id := List.map_congr_left this
    _ = s := List.map_id s

/-! ## The resolver -/

/-- C8, as stated, fails for a payload without a status field: the request
fulfils, nothing is thrown or logged, and the value returned is `undefined`,
a second absent value next to `null`. -/
theorem getDeliveryStatus_missing_field_undefined :
    getDeliveryStatus (serviceWith "https://api.delivery.com/orders/12345".toList
        (.value .undefined)) (some "12345".toList) =
      (.ok .undefined, [.httpGet "https://api.delivery.com/orders/12345".toList]) ∧
    JsValue.undefined ≠ JsValue.null ∧ (∀ s, JsValue.undefined ≠ JsValue.str s) := by
  refine ⟨by decide, by decide, ?_⟩
  intro s h
  cases h

/-- C8, amended: `getDeliveryStatus` never throws. Whatever the outbound GET
does, it returns a value after exactly one request: the value read from the
payload's `status` field when the request fulfils with a readable payload
(`undefined` when there is no such field), and `null` when the request rejects
(transport error, non-2xx response) or the payload is missing. -/
theorem getDeliveryStatus_never_throws (httpGet : Str → HttpOutcome) (orderId : Option Str) :
    (∃ v, (getDeliveryStatus httpGet orderId).1 = .ok v ∧
      (v = .null ∨ httpGet (orderUrl orderId) = .resolved (.value v))) ∧
    httpGets (getDeliveryStatus httpGet orderId).2 = [orderUrl orderId] ∧
    (∀ e, httpGet (orderUrl orderId) = .rejected e →
      (getDeliveryStatus httpGet orderId).1 = .ok .null) ∧
    (httpGet (orderUrl orderId) = .resolved .nullish →
      (getDeliveryStatus httpGet orderId).1 = .ok .null) ∧
    (∀ s, httpGet (orderUrl orderId) = .resolved (.value s) →
      (getDeliveryStatus httpGet orderId).1 = .ok s) := by
  refine ⟨?_, httpGets_getDeliveryStatus httpGet orderId, ?_, ?_, ?_⟩
  · rcases getDeliveryStatus_cases httpGet orderId with ⟨s, hs, h⟩ | ⟨_, h⟩
    · exact ⟨s, by rw [h], Or.inr hs⟩
    · exact ⟨.null, by rw [h], Or.inl rfl⟩
  · intro e he
    simp [getDeliveryStatus, getDeliveryStatusTry, he]
  · intro he
    simp [getDeliveryStatus, getDeliveryStatusTry, he]
  · intro s he
    simp [getDeliveryStatus, getDeliveryStatusTry, he]

/-! ## The dispatcher -/

/-- C1, as stated, fails: for the delivery intent and a text without any digit
the resolver is called with an undefined order id, one request goes out to
`.../orders/undefined`, and when the service answers with a status the reply is
that status, not the 'order not found' string. -/
theorem dispatch_no_digit_calls_resolver :
    (∀ c ∈ "Where is my order?".toList, isDigit c = false) ∧
    dispatch (serviceWith "https://api.delivery.com/orders/undefined".toList
        (.value (.str "lost".toList))) (some "delivery".toList) "Where is my order?".toList =
      (.ok "Статус заказа: lost".toList,
        [.httpGet "https://api.delivery.com/orders/undefined".toList]) := by
  decide

/-- C1, amended: for the delivery intent and every text without a digit the
handler calls `getDeliveryStatus` with an undefined order id, which makes exactly
one request to `.../orders/undefined`; the reply is the fixed 'order not found'
string whenever that request rejects or yields a falsy status; for a truthy
status it is the status prefix followed by the status converted to a string,
and when that conversion throws no reply is produced and the error goes to the
handler's catch. -/
theorem dispatch_delivery_no_digit (httpGet : Str → HttpOutcome) (text : Str)
    (h : ∀ c ∈ text, isDigit c = false) :
    (dispatch httpGet (some "delivery".toList) text).2 = (getDeliveryStatus httpGet none).2 ∧
    httpGets (dispatch httpGet (some "delivery".toList) text).2 =
      ["https://api.delivery.com/orders/undefined".toList] ∧
    (∀ status, (getDeliveryStatus httpGet none).1 = .ok status → status.truthy = false →
      (dispatch httpGet (some "delivery".toList) text).1 = .ok "Заказ не найден.".toList) ∧
    (∀ e, httpGet "https://api.delivery.com/orders/undefined".toList = .rejected e →
      (dispatch httpGet (some "delivery".toList) text).1 = .ok "Заказ не найден.".toList) ∧
    (∀ status shown, (getDeliveryStatus httpGet none).1 = .ok status → status.truthy = true →
      status.toStr = .ok shown →
      (dispatch httpGet (some "delivery".toList) text).1 =
        .ok ("Статус заказа: ".toList ++ shown)) ∧
    (∀ status e, (getDeliveryStatus httpGet none).1 = .ok status → status.truthy = true →
      status.toStr = .error e →
      (dispatch httpGet (some "delivery".toList) text).1 = .error e) := by
  obtain ⟨st, hst, hd⟩ := dispatch_delivery httpGet text
  rw [matchDigits_none text h] at hst hd
  have hurl : orderUrl none = "https://api.delivery.com/orders/undefined".toList := by decide
  refine ⟨by rw [hd], ?_, ?_, ?_, ?_, ?_⟩
  · rw [hd, ← hurl]; exact httpGets_getDeliveryStatus httpGet none
  · intro status hs ht
    rw [hst] at hs
    cases hs
    rw [hd]
    show deliveryReply st = _
    rw [deliveryReply, ht]
    rfl
  · intro e he
    rw [← hurl] at he
    have hn : (getDeliveryStatus httpGet none).1 = .ok .null := by
      simp [getDeliveryStatus, getDeliveryStatusTry, he]
    rw [hst] at hn
    cases hn
    rw [hd]
    rfl
  · intro status shown hs ht hshown
    rw [hst] at hs
    cases hs
    rw [hd]
    show deliveryReply st = _
    rw [deliveryReply, ht, hshown]
    rfl
  · intro status e hs ht he
    rw [hst] at hs
    cases hs
    rw [hd]
    show deliveryReply st = _
    rw [deliveryReply, ht, he]
    rfl

/-- C1, amended, at concrete inputs: a request that times out, and a service
that answers `.../orders/undefined` with a status that has no string
conversion. -/
theorem dispatch_delivery_no_digit_witness :
    (dispatch (fun _ => .rejected "timeout".toList) (some "delivery".toList)
        "Where is my order?".toList).1 = .ok "Заказ не найден.".toList ∧
    (dispatch (fun _ => .resolved (.value (.other true none))) (some "delivery".toList)
        "Where is my order?".toList).1 =
      .error "TypeError: Cannot convert object to primitive value".toList :=
  ⟨(dispatch_delivery_no_digit (fun _ => .rejected "timeout".toList)
      "Where is my order?".toList (by decide)).2.2.2.1 "timeout".toList rfl,
   (dispatch_delivery_no_digit (fun _ => .resolved (.value (.other true none)))
      "Where is my order?".toList (by decide)).2.2.2.2.2 (.other true none) _ rfl rfl rfl⟩

/-- C10: for every intent other than delivery the reply is a function of the
intent alone and no resolver call is made: the fixed payment string
'Оплата возможна картой или наличными.' for payment, the fixed clarification
prompt 'Уточните ваш вопрос.' for anything else (return, unknown, undefined). -/
theorem dispatch_non_delivery (httpGet : Str → HttpOutcome) (intent : Option Str) (text : Str)
    (h : intent ≠ some "delivery".toList) :
    dispatch httpGet intent text =
      (.ok (if intent = some "payment".toList then "Оплата возможна картой или наличными.".toList
        else "Уточните ваш вопрос.".toList), []) ∧
    httpGets (dispatch httpGet intent text).2 = [] ∧
    (intent = some "payment".toList →
      (dispatch httpGet intent text).1 = .ok "Оплата возможна картой или наличными.".toList) ∧
    (intent ≠ some "payment".toList →
      (dispatch httpGet intent text).1 = .ok "Уточните ваш вопрос.".toList) ∧
    "Оплата возможна картой или наличными.".toList ≠ "Уточните ваш вопрос.".toList := by
  have hd := dispatch_other httpGet intent text h
  refine ⟨hd, by rw [hd]; rfl, ?_, ?_, by decide⟩
  · intro hp; rw [hd, if_pos hp]; rfl
  · intro hp; rw [hd, if_neg hp]; rfl

/-- C10 at concrete inputs: payment, return, unknown and undefined. -/
theorem dispatch_non_delivery_witness :
    dispatch (fun _ => .resolved (.value (.str "in transit".toList))) (some "payment".toList)
        "card 42?".toList = (.ok "Оплата возможна картой или наличными.".toList, []) ∧
    dispatch (fun _ => .resolved (.value (.str "in transit".toList))) (some "return".toList)
        "card 42?".toList = (.ok "Уточните ваш вопрос.".toList, []) ∧
    dispatch (fun _ => .rejected []) (some "unknown".toList) [] =
      (.ok "Уточните ваш вопрос.".toList, []) ∧
    dispatch (fun _ => .rejected []) none [] = (.ok "Уточните ваш вопрос.".toList, []) :=
  ⟨(dispatch_non_delivery _ (some "payment".toList) _ (by decide)).1,
   (dispatch_non_delivery _ (some "return".toList) _ (by decide)).1,
   (dispatch_non_delivery _ (some "unknown".toList) _ (by decide)).1,
   (dispatch_non_delivery _ none _ (by decide)).1⟩

/-- C6, as stated, fails for the empty status string: the service answers order
12345 with `status: ""`, the resolver returns that string, and the reply is the
'order not found' string, not the status prefix followed by the status. -/
theorem dispatch_empty_status :
    (getDeliveryStatus (serviceWith "https://api.delivery.com/orders/12345".toList
        (.value (.str []))) (some "12345".toList)).1 = .ok (.str []) ∧
    dispatch (serviceWith "https://api.delivery.com/orders/12345".toList (.value (.str [])))
        (some "delivery".toList) "Where is order 12345?".toList =
      (.ok "Заказ не найден.".toList, [.httpGet "https://api.delivery.com/orders/12345".toList]) ∧
    "Заказ не найден.".toList ≠ statusPrefix ++ [] := by
  decide

/-- C6, amended: for the delivery intent and every text containing a digit, the
handler passes the leftmost maximal digit run of the original text to the
resolver (one request, to the URL ending in that run); if the resolver returns a
non-empty status string `s` the reply is the status prefix followed by `s`, and
if it returns an absent value (`null` or `undefined`) the reply is the fixed
'order not found' string. -/
theorem dispatch_delivery_with_digit (httpGet : Str → HttpOutcome) (text : Str)
    (h : ∃ c ∈ text, isDigit c = true) :
    ∃ run, IsFirstDigitRun text run ∧ (∀ run', IsFirstDigitRun text run' → run' = run) ∧
      matchDigits text = some run ∧
      (dispatch httpGet (some "delivery".toList) text).2 =
        (getDeliveryStatus httpGet (some run)).2 ∧
      httpGets (dispatch httpGet (some "delivery".toList) text).2 =
        ["https://api.delivery.com/orders/".toList ++ run] ∧
      (∀ s, s ≠ [] → (getDeliveryStatus httpGet (some run)).1 = .ok (.str s) →
        (dispatch httpGet (some "delivery".toList) text).1 = .ok (statusPrefix ++ s)) ∧
      (∀ v, (getDeliveryStatus httpGet (some run)).1 = .ok v → v = .null ∨ v = .undefined →
        (dispatch httpGet (some "delivery".toList) text).1 = .ok orderNotFound) := by
  obtain ⟨run, hrun⟩ := exists_firstDigitRun text h
  have hm := matchDigits_of_run text run hrun
  obtain ⟨st, hst, hd⟩ := dispatch_delivery httpGet text
  rw [hm] at hst hd
  refine ⟨run, hrun, ?_, hm, by rw [hd], ?_, ?_, ?_⟩
  · intro run' hrun'
    have hm' := matchDigits_of_run text run' hrun'
    rw [hm] at hm'
    exact (Option.some.inj hm').symm
  · rw [hd]; exact httpGets_getDeliveryStatus httpGet (some run)
  · intro s hs hv
    rw [hst] at hv
    cases hv
    rw [hd]
    cases s with
    | nil => exact absurd rfl hs
    | cons c cs => rfl
  · intro v hv hnull
    rw [hst] at hv
    cases hv
    rw [hd]
    rcases hnull with rfl | rfl <;> rfl

/-- C6, amended, at a concrete input. -/
theorem dispatch_delivery_with_digit_witness :
    (∃ run, IsFirstDigitRun "Where is order 12345? Or 77?".toList run ∧
      (∀ run', IsFirstDigitRun "Where is order 12345? Or 77?".toList run' → run' = run) ∧
      matchDigits "Where is order 12345? Or 77?".toList = some run ∧
      (dispatch (serviceWith "https://api.delivery.com/orders/12345".toList
        (.value (.str "in transit".toList))) (some "delivery".toList)
          "Where is order 12345? Or 77?".toList).2 =
        (getDeliveryStatus (serviceWith "https://api.delivery.com/orders/12345".toList
          (.value (.str "in transit".toList))) (some run)).2 ∧
      httpGets (dispatch (serviceWith "https://api.delivery.com/orders/12345".toList
        (.value (.str "in transit".toList))) (some "delivery".toList)
          "Where is order 12345? Or 77?".toList).2 =
        ["https://api.delivery.com/orders/".toList ++ run] ∧
      (∀ s, s ≠ [] → (getDeliveryStatus (serviceWith "https://api.delivery.com/orders/12345".toList
          (.value (.str "in transit".toList))) (some run)).1 = .ok (.str s) →
        (dispatch (serviceWith "https://api.delivery.com/orders/12345".toList
          (.value (.str "in transit".toList))) (some "delivery".toList)
            "Where is order 12345? Or 77?".toList).1 = .ok (statusPrefix ++ s)) ∧
      (∀ v, (getDeliveryStatus (serviceWith "https://api.delivery.com/orders/12345".toList
          (.value (.str "in transit".toList))) (some run)).1 = .ok v → v = .null ∨ v = .undefined →
        (dispatch (serviceWith "https://api.delivery.com/orders/12345".toList
          (.value (.str "in transit".toList))) (some "delivery".toList)
            "Where is order 12345? Or 77?".toList).1 = .ok orderNotFound)) ∧
    dispatch (serviceWith "https://api.delivery.com/orders/12345".toList
        (.value (.str "in transit".toList))) (some "delivery".toList)
        "Where is order 12345? Or 77?".toList =
      (.ok "Статус заказа: in transit".toList,
        [.httpGet "https://api.delivery.com/orders/12345".toList]) :=
  ⟨dispatch_delivery_with_digit _ "Where is order 12345? Or 77?".toList
    ⟨'1', by decide, by decide⟩, by decide⟩

/-! ## The normalizer -/

/-- C5: no token returned by `preprocessText` contains a digit character, and the
result is the tokenizer's output on the lower-cased text with the
digit-containing tokens removed, in the original order. -/
theorem preprocessText_no_digit {E P : Type} (w : World E P) (text : Str) :
    (∀ token ∈ preprocessText w text, ∀ c ∈ token,
      c ∉ ['0', '1', '2', '3', '4', '5', '6', '7', '8', '9']) ∧
    preprocessText w text =
      (w.tokenize (w.toLowerCase text)).filter (fun token => decide (¬ ContainsDigit token)) ∧
    List.Sublist (preprocessText w text) (w.tokenize (w.toLowerCase text)) := by
  refine ⟨?_, ?_, List.filter_sublist _⟩
  · intro token ht c hc hd
    have hf := (List.mem_filter.mp ht).2
    have : regexTestDigit token = true :=
      (regexTestDigit_iff_containsDigit token).mpr ⟨c, hc, hd⟩
    simp [this] at hf
  · unfold preprocessText
    apply List.filter_congr
    intro token _
    by_cases h : regexTestDigit token = true
    · have := (regexTestDigit_iff_containsDigit token).mp h
      simp [h, this]
    · have hn : ¬ ContainsDigit token := fun hc => h ((regexTestDigit_iff_containsDigit token).mpr hc)
      simp [h, hn]

/-! ## The classifier -/

/-- C3, as stated, fails: with a loaded model whose `argMax()` is a tensor
object, or the out-of-range number 3, the function returns `undefined`, which is
neither one of the three intents nor the string 'unknown'. -/
theorem classifyIntent_out_of_range_undefined :
    classifyIntent tensorWorld "hello there".toList = .ok none ∧
    classifyIntent (sampleWorld 3 [] .nullish true) "hello there".toList = .ok none ∧
    classifyIntent (sampleWorld 3 [] .nullish true) "hello there".toList ≠
      .ok (some "unknown".toList) ∧
    (none : Option Str) ∉ [some "delivery".toList, some "payment".toList, some "return".toList,
      some "unknown".toList] := by
  decide

/-- C3, amended: whenever the model is loaded and `embed`, `predict` and
`argMax` return, `classifyIntent` returns `intents[k]` for the value `k` that
`argMax()` evaluated to; the result is one of delivery, payment, return or
`undefined`, never the string 'unknown', and it is `undefined` whenever `k` is
not a valid index of the list. -/
theorem classifyIntent_result {E P : Type} (w : World E P) (text : Str) (m : Model E P)
    (embed : Str → Except Str E) (e : E) (p : P) (k : Subscript) (hm : w.model = some m)
    (hf : m.embed = some embed)
    (he : embed (join " ".toList (preprocessText w text)) = .ok e)
    (hp : m.predict e = .ok p) (ha : m.argMax p = .ok k) :
    classifyIntent w text = .ok (intentAt k) ∧
    intentAt k ∈ [some "delivery".toList, some "payment".toList, some "return".toList, none] ∧
    intentAt k ≠ some "unknown".toList ∧
    ((∀ i, k = .number i → i < 0 ∨ 3 ≤ i) → intentAt k = none) := by
  have hout : ∀ i : Int, i < 0 ∨ 3 ≤ i → intentAt (.number i) = none := by
    intro i h
    show (if 0 ≤ i then intents[i.toNat]? else none) = none
    split
    · rename_i h0
      have h3 : 3 ≤ i.toNat := by omega
      exact List.getElem?_eq_none (by simpa [intents] using h3)
    · rfl
  have hmem : intentAt k ∈
      [some "delivery".toList, some "payment".toList, some "return".toList, none] := by
    cases k with
    | other => decide
    | number i =>
      by_cases h0 : i = 0
      · subst h0; decide
      by_cases h1 : i = 1
      · subst h1; decide
      by_cases h2 : i = 2
      · subst h2; decide
      rw [hout i (by omega)]; decide
  refine ⟨?_, hmem, ?_, ?_⟩
  · simp only [classifyIntent, hm, hf, he, hp, ha]
  · intro hu
    rw [hu] at hmem
    revert hmem
    decide
  · intro h
    cases k with
    | other => rfl
    | number i => exact hout i (h i rfl)

/-- C3, amended, at concrete inputs: a tensor subscript and the number 7 both
give `undefined`. -/
theorem classifyIntent_result_witness :
    classifyIntent tensorWorld "How can I pay?".toList = .ok none ∧
    classifyIntent (sampleWorld 7 [] .nullish true) "How can I pay?".toList = .ok none :=
  ⟨(classifyIntent_result tensorWorld "How can I pay?".toList tensorModel (fun _ => .ok ())
      () () .other rfl rfl rfl rfl rfl).1,
   (classifyIntent_result (sampleWorld 7 [] .nullish true) "How can I pay?".toList
      (constModel 7) (fun _ => .ok ()) () () (.number 7) rfl rfl rfl rfl rfl).1⟩

/-! ## The handler -/

theorem handler_of_dispatched {E P : Type} (w : World E P) (userId text : Str)
    (intent : Option Str) (response : Str) (events : List Event)
    (hc : classifyIntent w text = .ok intent)
    (hd : dispatch w.httpGet intent text = (.ok response, events)) :
    handler w userId text =
      if w.dialogCreate ⟨userId, text, intent⟩ then
        (.ok response, events ++ [.dialogCreate ⟨userId, text, intent⟩])
      else
        (.error500, events ++ [.dialogCreate ⟨userId, text, intent⟩] ++
          [.logError "Processing error:".toList]) := by
  simp only [handler, hc, hd, handlerCatch]

theorem handler_of_thrown {E P : Type} (w : World E P) (userId text : Str)
    (intent : Option Str) (e : Str) (events : List Event)
    (hc : classifyIntent w text = .ok intent)
    (hd : dispatch w.httpGet intent text = (.error e, events)) :
    handler w userId text = (.error500, events ++ [.logError "Processing error:".toList]) := by
  simp only [handler, hc, hd, handlerCatch]

/-- C2, as stated, fails: the same request, classified as payment, gets the
payment reply when `Dialog.create` fulfils and the 500 error when it rejects. -/
theorem handler_store_failure_changes_reply :
    classifyIntent (sampleWorld 1 [] .nullish false) "How can I pay?".toList =
      .ok (some "payment".toList) ∧
    dispatch (sampleWorld 1 [] .nullish false).httpGet (some "payment".toList)
      "How can I pay?".toList = (.ok paymentInfo, []) ∧
    (handler (sampleWorld 1 [] .nullish true) "u1".toList "How can I pay?".toList).1 =
      .ok paymentInfo ∧
    (handler (sampleWorld 1 [] .nullish false) "u1".toList "How can I pay?".toList).1 =
      .error500 := by
  decide

/-- C2, amended: for every request whose classification and dispatch succeed,
the handler attempts `Dialog.create` once; when it fulfils the caller receives
the computed `{ response }`, and when it rejects the failure is logged and the
caller receives the 500 error instead of the computed response. -/
theorem handler_store_outcome {E P : Type} (w : World E P) (userId text : Str)
    (intent : Option Str) (response : Str) (events : List Event)
    (hc : classifyIntent w text = .ok intent)
    (hd : dispatch w.httpGet intent text = (.ok response, events)) :
    (w.dialogCreate ⟨userId, text, intent⟩ = true →
      handler w userId text = (.ok response, events ++ [.dialogCreate ⟨userId, text, intent⟩])) ∧
    (w.dialogCreate ⟨userId, text, intent⟩ = false →
      handler w userId text =
        (.error500, events ++ [.dialogCreate ⟨userId, text, intent⟩] ++
          [.logError "Processing error:".toList])) := by
  have hh := handler_of_dispatched w userId text intent response events hc hd
  constructor
  · intro hs; rw [hh, if_pos hs]
  · intro hs; rw [hh, hs]; rfl

/-- C2, amended, at a concrete input with a store that rejects. -/
theorem handler_store_outcome_witness :
    handler (sampleWorld 1 [] .nullish false) "u1".toList "How can I pay?".toList =
      (.error500, [] ++ [.dialogCreate ⟨"u1".toList, "How can I pay?".toList,
        some "payment".toList⟩] ++ [.logError "Processing error:".toList]) :=
  (handler_store_outcome (sampleWorld 1 [] .nullish false) "u1".toList "How can I pay?".toList
    (some "payment".toList) paymentInfo [] (by decide) (by decide)).2 rfl

/-- C4: every handler invocation that returns a success reply has made exactly
one `Dialog.create` call, carrying the request's user id, the original text as
message and the intent `classifyIntent` returned, whatever the dispatch outcome;
and the reply is the one the dispatcher computed for that intent. -/
theorem handler_success_one_record {E P : Type} (w : World E P) (userId text response : Str)
    (h : (handler w userId text).1 = .ok response) :
    ∃ intent, classifyIntent w text = .ok intent ∧
      dialogCreates (handler w userId text).2 = [⟨userId, text, intent⟩] ∧
      (dispatch w.httpGet intent text).1 = .ok response := by
  cases hc : classifyIntent w text with
  | error e =>
    simp [handler, hc, handlerCatch] at h
  | ok intent =>
    have hev := dialogCreates_dispatch w.httpGet intent text
    cases hd : dispatch w.httpGet intent text with
    | mk result ev =>
      rw [hd] at hev
      cases result with
      | error e =>
        rw [handler_of_thrown w userId text intent e ev hc hd] at h
        cases h
      | ok r =>
        have hh := handler_of_dispatched w userId text intent r ev hc hd
        refine ⟨intent, rfl, ?_⟩
        rw [hh] at h ⊢
        by_cases hs : w.dialogCreate ⟨userId, text, intent⟩ = true
        · rw [if_pos hs] at h ⊢
          cases h
          refine ⟨?_, by rw [hd]⟩
          rw [dialogCreates_append]
          have hev' : dialogCreates ev = [] := hev
          rw [hev']
          rfl
        · rw [if_neg hs] at h
          cases h

/-- C4 at concrete inputs: a delivery request whose order is not found still
records the delivery intent. -/
theorem handler_success_one_record_witness :
    ∃ intent, classifyIntent (sampleWorld 0 [] .nullish true) "Where is order 12345?".toList =
        .ok intent ∧
      dialogCreates (handler (sampleWorld 0 [] .nullish true) "u1".toList
        "Where is order 12345?".toList).2 =
        [⟨"u1".toList, "Where is order 12345?".toList, intent⟩] ∧
      (dispatch (sampleWorld 0 [] .nullish true).httpGet intent
        "Where is order 12345?".toList).1 = .ok orderNotFound :=
  handler_success_one_record (sampleWorld 0 [] .nullish true) "u1".toList
    "Where is order 12345?".toList orderNotFound (by decide)

/-- C7: while the model is still unset, `classifyIntent` fails with an error, the
handler answers with the error result, never with a success reply, and no
`Dialog.create` call (and no outbound request) is made. -/
theorem handler_model_unset {E P : Type} (w : World E P) (userId text : Str)
    (h : w.model = none) :
    (∃ e, classifyIntent w text = .error e) ∧
    handler w userId text = (.error500, [.logError "Processing error:".toList]) ∧
    (∀ response, (handler w userId text).1 ≠ .ok response) ∧
    dialogCreates (handler w userId text).2 = [] ∧
    httpGets (handler w userId text).2 = [] := by
  have hc : classifyIntent w text =
      .error "TypeError: Cannot read properties of undefined".toList := by
    simp only [classifyIntent, h]
  have hh : handler w userId text = (.error500, [.logError "Processing error:".toList]) := by
    simp only [handler, hc, handlerCatch, List.nil_append]
  refine ⟨⟨_, hc⟩, hh, ?_, ?_, ?_⟩
  · intro r hr; rw [hh] at hr; cases hr
  · rw [hh]; rfl
  · rw [hh]; rfl

/-- C7 at a concrete input. -/
theorem handler_model_unset_witness :
    handler coldWorld "u1".toList "Where is order 12345?".toList =
      (.error500, [.logError "Processing error:".toList]) :=
  (handler_model_unset coldWorld "u1".toList "Where is order 12345?".toList rfl).2.1

/-! ## Idempotence of the normalizer -/

/-- C9: `preprocessText` is idempotent on its own output: joining the tokens of
`preprocessText(t)` with single spaces and normalizing again returns the same
token list. The tokenizer is a word tokenizer that treats the space as a
separator, and lower-casing leaves unchanged any text made of spaces and of
characters that are themselves output of lower-casing. -/
theorem preprocessText_idempotent {E P : Type} (w : World E P) (isSep : Char → Bool)
    (htok : w.tokenize = wordTokenize isSep) (hsp : isSep ' ' = true)
    (hlow : ∀ s : Str, (∀ c ∈ s, c = ' ' ∨ ∃ u, c ∈ w.toLowerCase u) → w.toLowerCase s = s)
    (t : Str) :
    preprocessText w (join " ".toList (preprocessText w t)) = preprocessText w t := by
  have hsplit : ∀ tok ∈ preprocessText w t,
      (tok ≠ [] ∧ ∀ c ∈ tok, isSep c = false) ∧ (∀ c ∈ tok, c ∈ w.toLowerCase t) ∧
        (!regexTestDigit tok) = true := by
    intro tok htk
    obtain ⟨hmem, hdig⟩ := List.mem_filter.mp htk
    rw [htok] at hmem
    obtain ⟨hne, hsep, hsub⟩ := wordTokenize_mem isSep _ tok hmem
    exact ⟨⟨hne, hsep⟩, hsub, hdig⟩
  have hjoin : w.toLowerCase (join [' '] (preprocessText w t)) = join [' '] (preprocessText w t) := by
    apply hlow
    intro c hc
    rcases mem_join _ _ c hc with h | ⟨tok, htk, hct⟩
    · exact Or.inl (List.mem_singleton.mp h)
    · exact Or.inr ⟨t, (hsplit tok htk).2.1 c hct⟩
  show (w.tokenize (w.toLowerCase (join [' '] (preprocessText w t)))).filter
      (fun token => !regexTestDigit token) = preprocessText w t
  rw [hjoin, htok, wordTokenize_join isSep hsp _ (fun tok htk => (hsplit tok htk).1)]
  exact List.filter_eq_self.mpr (fun tok htk => (hsplit tok htk).2.2)

/-- C9 at a concrete input, with the separator class of the library's word
tokenizer and ASCII lower-casing. -/
theorem preprocessText_idempotent_witness :
    preprocessText (sampleWorld 0 [] .nullish true)
        (join " ".toList (preprocessText (sampleWorld 0 [] .nullish true)
          "Where is  Order 12345, track a1 now?".toList)) =
      ["where".toList, "is".toList, "order".toList, "track".toList, "now".toList] :=
  (preprocessText_idempotent (sampleWorld 0 [] .nullish true) wordSep rfl (by decide)
    map_toLower_fixed "Where is  Order 12345, track a1 now?".toList).trans (by decide)

end SmartDeliveryChatbot
